import Mathlib

/-!
Verification development for the `@mements/serve` request-serving core
(`src/index.ts`, second revision of the file, whose line numbers the claims
reference).  The TypeScript source is shallowly embedded: JS strings become
`String`, JS objects used as string-keyed records become association lists
with replace-on-assign semantics, the external compiler and the filesystem
become explicit functional parameters, and the `async` control flow of the
dispatcher becomes a pure function from the request path and the mutable
`filePathCache` to an outcome, the new cache and the list of compiler
invocations.
-/

namespace MementsServe

/-! ## JS / Node string primitives

`jsBasename` models Node's `path.basename` for the slash-separated paths the
server manipulates; `beforeFirstDotS` models `s.split(".")[0]`;
`afterFirstSlashS` models `s.split("/").slice(1).join("/")`;
`extnameS` models `path.extname` (extension from the last dot of the base
name, empty when the only dot is the leading character); `lowerS` models
`s.toLowerCase()` for the basic-latin letters Lean's `Char.toLower`
understands; `startsWithS` / `endsWithS` model `String.startsWith` /
`String.endsWith`. -/

def beforeFirstChar (c : Char) (s : String) : String :=
  String.mk (s.toList.takeWhile (fun a => a != c))

def afterFirstChar (c : Char) (s : String) : String :=
  String.mk ((s.toList.dropWhile (fun a => a != c)).drop 1)

def jsBasename (p : String) : String :=
  String.mk ((p.toList.reverse.takeWhile (fun a => a != '/')).reverse)

def beforeFirstDotS (s : String) : String := beforeFirstChar '.' s

def afterFirstSlashS (s : String) : String := afterFirstChar '/' s

def extnameS (p : String) : String :=
  match (jsBasename p).toList with
  | [] => ""
  | _ :: rest =>
    if '.' ∈ rest then
      String.mk ('.' :: (rest.reverse.takeWhile (fun a => a != '.')).reverse)
    else ""

def lowerS (s : String) : String := String.mk (s.toList.map Char.toLower)

def startsWithS (s pre : String) : Bool := decide (pre.toList <+: s.toList)

def endsWithS (s suf : String) : Bool := decide (suf.toList <:+ s.toList)

def containsCharS (s : String) (c : Char) : Bool := decide (c ∈ s.toList)

def dropS (s : String) (n : Nat) : String := String.mk (s.toList.drop n)

/-- Node `path.basename(p, ext)`: the base name with the suffix `ext`
removed when it is a proper suffix of the base name. -/
def jsBasenameSuffix (p ext : String) : String :=
  let b := jsBasename p
  if b ≠ ext ∧ endsWithS b ext then
    String.mk (b.toList.take (b.toList.length - ext.toList.length))
  else b

/-! ## JS objects used as string-keyed records

`jsInsert` models `obj[k] = v` (replace the existing entry in place, else
append, preserving first-insertion key order); `jsLookup` models `obj[k]`
(`none` plays the role of `undefined`). -/

def jsLookup (m : List (String × String)) (k : String) : Option String :=
  (m.find? (fun p => p.1 == k)).map (fun p => p.2)

def jsInsert (m : List (String × String)) (k v : String) : List (String × String) :=
  match m with
  | [] => [(k, v)]
  | p :: ps => if p.1 == k then (k, v) :: ps else p :: jsInsert ps k v

/-- JS template-literal interpolation of a value that may be `undefined`:
`` `${x}` `` renders `undefined` as the string `"undefined"`. -/
def jsStr (o : Option String) : String := o.getD "undefined"

/-! ## Import resolver (`serve`, src/index.ts lines 592-626) -/

structure ImportConfig where
  name : String
  version : Option String := none
  deps : List String := []
deriving DecidableEq, Repr

/-- The key used for an import in the first-pass version map: the full name
for scoped (`@`-led) packages, otherwise `name.split("/")[0]`. -/
def rootKeyOf (name : String) : String :=
  if startsWithS name "@" then name else beforeFirstChar '/' name

/-- First pass (lines 593-601): `versionMap[root] = imp.version ?? "latest"`,
later assignments overwriting earlier ones. -/
def buildVersionMap (imports : List ImportConfig) : List (String × String) :=
  imports.foldl (fun m imp => jsInsert m (rootKeyOf imp.name) (imp.version.getD "latest")) []

/-- The base delivery URL of one descriptor (lines 604-613), before query
parameters. -/
def baseUrlOf (vm : List (String × String)) (imp : ImportConfig) : String :=
  if startsWithS imp.name "@" then
    "https://esm.sh/" ++ imp.name ++ "@" ++ jsStr (jsLookup vm imp.name)
  else
    let baseName := beforeFirstChar '/' imp.name
    let u := "https://esm.sh/" ++ baseName ++ "@" ++ jsStr (jsLookup vm baseName)
    if containsCharS imp.name '/' then u ++ "/" ++ afterFirstSlashS imp.name else u

/-- One entry of the `deps` query parameter (line 618):
`` `${dep}@${versionMap[dep.split("/")[0]]}` ``. -/
def depEntryOf (vm : List (String × String)) (dep : String) : String :=
  dep ++ "@" ++ jsStr (jsLookup vm (beforeFirstChar '/' dep))

/-- Full delivery URL of one descriptor (lines 603-623). -/
def importUrl (vm : List (String × String)) (isDev : Bool) (imp : ImportConfig) : String :=
  let base := baseUrlOf vm imp
  let queryParts : List String :=
    (if imp.deps ≠ [] then
      ["deps=" ++ String.intercalate "," (imp.deps.map (depEntryOf vm))]
     else [])
    ++ (if isDev then ["dev"] else [])
  if queryParts ≠ [] then base ++ "?" ++ String.intercalate "&" queryParts else base

/-- The resolved import map: descriptor `name` to delivery URL (line 625). -/
def resolveImports (imports : List ImportConfig) (isDev : Bool) : List (String × String) :=
  let vm := buildVersionMap imports
  imports.foldl (fun m imp => jsInsert m imp.name (importUrl vm isDev imp)) []

/-- Specification-side description of the first pass: the version of the
last descriptor (in list order) declaring a given root, defaulted to
"latest". -/
def lastDeclared (imports : List ImportConfig) (root : String) : Option String :=
  (imports.reverse.find? (fun imp => rootKeyOf imp.name == root)).map
    (fun imp => imp.version.getD "latest")

/-! ## Thrown error values (`measure`, src/index.ts lines 435-471)

A JS exception is either an `Error` object (message, optional `cause`) or a
raw thrown string.  `errToString` models JS string conversion of the thrown
value as template interpolation performs it (`Error.prototype.toString`
yields `"Error: " + message`; the `cause` and the stack are not part of
it). -/

inductive ErrVal where
  | errNoCause (message : String)
  | errCause (message : String) (cause : ErrVal)
  | thrownStr (s : String)
deriving DecidableEq, Repr

def errToString : ErrVal → String
  | .errNoCause m => "Error: " ++ m
  | .errCause m _ => "Error: " ++ m
  | .thrownStr s => s

def messageOf : ErrVal → Option String
  | .errNoCause m => some m
  | .errCause m _ => some m
  | .thrownStr _ => none

def causeOf : ErrVal → Option ErrVal
  | .errNoCause _ => none
  | .errCause _ c => some c
  | .thrownStr _ => none

/-- The catch branch of `measure` (line 469):
`throw new Error(\x7b action \x7d failed: \x7b error \x7d)` — a fresh `Error`
whose message interpolates the label and the original error, with no
`cause` attached. -/
def measureWrap (action : String) (e : ErrVal) : ErrVal :=
  .errNoCause (action ++ " failed: " ++ errToString e)

/-- Whether `target` is reachable from `e` through one or more `cause`
links. -/
def causeReachable : ErrVal → ErrVal → Bool
  | .errCause _ c, target => c == target || causeReachable c target
  | _, _ => false

/-! ## Tracer span model (`measure`, src/index.ts lines 435-471)

A unit of work is abstracted by the tree of nested `measure` invocations it
performs (`Call`); running `measure` over such a tree produces the tree of
spans it creates, each span recording the context visible to that
invocation: `level = context.level || 0`, the request id, the label, and
the parent label.  The nested `measure` handed to the unit of work runs
with `level + 1` and `requestId ? requestId : undefined`
(lines 451-457). -/

mutual
inductive Call where
  | mk (action : String) (children : CallList)
inductive CallList where
  | nil
  | cons (c : Call) (cs : CallList)
end

structure MeasureContext where
  requestId : Option String := none
  level : Option Nat := none
  parentAction : Option String := none
deriving DecidableEq, Repr

structure Span where
  requestId : Option String
  level : Nat
  action : String
  parentAction : Option String
deriving DecidableEq, Repr

mutual
inductive SpanTree where
  | mk (span : Span) (children : SpanList)
inductive SpanList where
  | nil
  | cons (t : SpanTree) (ts : SpanList)
end

def SpanTree.span : SpanTree → Span
  | .mk s _ => s

/-- JS truthiness of a `string | undefined` value: truthy iff present and
non-empty. -/
def truthyOpt : Option String → Bool
  | none => false
  | some s => s != ""

mutual
def runMeasure (ctx : MeasureContext) : Call → SpanTree
  | .mk action children =>
    let level := ctx.level.getD 0
    .mk ⟨ctx.requestId, level, action, ctx.parentAction⟩
      (runMeasureList
        ⟨if truthyOpt ctx.requestId then ctx.requestId else none,
         some (level + 1), some action⟩
        children)
def runMeasureList (ctx : MeasureContext) : CallList → SpanList
  | .nil => .nil
  | .cons c cs => .cons (runMeasure ctx c) (runMeasureList ctx cs)
end

mutual
def depthOk : SpanTree → Bool
  | .mk s children => depthOkList s.level children
def depthOkList (parent : Nat) : SpanList → Bool
  | .nil => true
  | .cons t ts => (t.span.level == parent + 1) && depthOk t && depthOkList parent ts
end

mutual
def ridAll (rid : Option String) : SpanTree → Bool
  | .mk s children => (s.requestId == rid) && ridAllList rid children
def ridAllList (rid : Option String) : SpanList → Bool
  | .nil => true
  | .cons t ts => ridAll rid t && ridAllList rid ts
end

/-! ## Build cache and rebuild decision (src/index.ts lines 499, 553-813)

`filePathCache` is the process-wide key-to-path record.  The external
compiler is a functional parameter from the entrypoint list to either a
list of output paths or a failure (a thrown build error, which
`rebuildPage` catches).  The filesystem is a functional parameter telling
which paths exist (`Bun.file(p).exists()`). -/

structure PageConfig where
  route : String
  target : String
deriving DecidableEq, Repr

inductive BuildResult where
  | ok (outputs : List String)
  | failed
deriving DecidableEq, Repr

/-- Target path resolution (lines 564-569): a target that does not start
with "./" is rewritten to `./pages/\x7btarget\x7d/\x7btarget\x7d.html`. -/
def targetPathOf (target : String) : String :=
  if startsWithS target "./" then target
  else "./pages/" ++ target ++ "/" ++ target ++ ".html"

/-- `routeMap` value (line 570): the target path with a leading "./"
stripped. -/
def routeFileOf (target : String) : String :=
  let tp := targetPathOf target
  if startsWithS tp "./" then dropS tp 2 else tp

def buildRouteMap (pages : List PageConfig) : List (String × String) :=
  pages.foldl (fun m p => jsInsert m p.route (routeFileOf p.target)) []

def buildEntrypoints (pages : List PageConfig) : List (String × String) :=
  pages.foldl (fun m p => jsInsert m p.route (targetPathOf p.target)) []

/-- `Object.values(entrypoints).map(e => e.path)`. -/
def entrypointPaths (pages : List PageConfig) : List String :=
  (buildEntrypoints pages).map (fun p => p.2)

/-- `path.basename(p).split(".")[0].toLowerCase()` — used both to match an
entrypoint in `rebuildPage` (line 654) and as the base of a cache key
(lines 667, 805). -/
def outBaseOf (p : String) : String := lowerS (beforeFirstDotS (jsBasename p))

/-- The cache key stored for one build output (lines 667-669):
`` `${outputBaseName}${ext}` `` with `ext = path.extname(output.path)`. -/
def outKeyOf (p : String) : String := outBaseOf p ++ extnameS p

/-- Lines 666-671: record every output of a compile in `filePathCache`. -/
def cacheStore (cache : List (String × String)) (outputs : List String) :
    List (String × String) :=
  outputs.foldl (fun c o => jsInsert c (outKeyOf o) o) cache

structure RebuildResult where
  buildResult : Option (List String)
  cache : List (String × String)
  compileCalls : List (List String)
deriving DecidableEq, Repr

/-- `rebuildPage` (lines 652-684): in development mode find the entrypoint
whose base name matches the page path, compile exactly that entrypoint,
record every output in the cache, and return the build result (`none` when
the build threw, in which case the error is caught and the cache is left
untouched).  Outside development mode it returns `null` immediately. -/
def rebuildPage (isDev : Bool) (compile : List String → BuildResult)
    (epaths : List String) (cache : List (String × String)) (pagePath : String) :
    RebuildResult :=
  if isDev then
    match epaths.find? (fun e => outBaseOf e == outBaseOf pagePath) with
    | none => ⟨none, cache, []⟩
    | some entry =>
      match compile [entry] with
      | .ok outputs => ⟨some outputs, cacheStore cache outputs, [[entry]]⟩
      | .failed => ⟨none, cache, [[entry]]⟩
  else ⟨none, cache, []⟩

inductive BodyM where
  | fileBody (path : String)
  | pageBody (artifact : String)
  | apiBody (route : String)
  | textBody (s : String)
deriving DecidableEq, Repr

structure ResponseM where
  status : Nat
  contentType : Option String
  body : BodyM
deriving DecidableEq, Repr

/-- A fetch either returns a response or rejects with a thrown error whose
string rendering is recorded (Bun's `error` hook then produces a 500
page). -/
inductive Outcome where
  | success (r : ResponseM)
  | thrown (msg : String)
deriving DecidableEq, Repr

structure FetchStep where
  outcome : Outcome
  cache : List (String × String)
  compileCalls : List (List String)
deriving DecidableEq, Repr

/-- `getHeaders` (lines 501-515). -/
def contentTypeFor (ext : String) : String :=
  if ext == ".html" then "text/html"
  else if ext == ".js" then "text/javascript"
  else if ext == ".css" then "text/css"
  else if ext == ".png" then "image/png"
  else if ext == ".jpg" then "image/jpeg"
  else if ext == ".svg" then "image/svg+xml"
  else "application/octet-stream"

def pageNotFoundMsg (routeFile : String) : String := "Page not found: " ++ routeFile

/-- Tail of the page branch (lines 752-770): with no artifact the branch
throws `Page not found`; with an artifact the handler runs and `servePage`
returns the rewritten HTML response. -/
def finishPage (cache : List (String × String)) (compileCalls : List (List String))
    (htmlFile : Option String) (routeFile : String) : FetchStep :=
  match htmlFile with
  | none => ⟨.thrown (pageNotFoundMsg routeFile), cache, compileCalls⟩
  | some artifact =>
    ⟨.success ⟨200, some "text/html", .pageBody artifact⟩, cache, compileCalls⟩

/-- The page branch of `fetch` (lines 712-774). -/
def handlePage (isDev : Bool) (fs : String → Bool) (compile : List String → BuildResult)
    (epaths : List String) (cache : List (String × String)) (routeFile : String) :
    FetchStep :=
  let ext := extnameS routeFile
  let baseName := jsBasenameSuffix routeFile ext
  if isDev then
    let r := rebuildPage true compile epaths cache routeFile
    let htmlFile : Option String :=
      match r.buildResult with
      | some outputs => outputs.find? (fun o => endsWithS o ext)
      | none => none
    finishPage r.cache r.compileCalls htmlFile routeFile
  else
    let cacheKey := lowerS baseName ++ ext
    let cached : Option String :=
      match jsLookup cache cacheKey with
      | some p => if fs p then some p else none
      | none => none
    match cached with
    | some p => finishPage cache [] (some p) routeFile
    | none =>
      let r := rebuildPage false compile epaths cache routeFile
      let htmlFile : Option String :=
        match r.buildResult with
        | some outputs => outputs.find? (fun o => endsWithS o ext)
        | none => none
      finishPage r.cache r.compileCalls htmlFile routeFile

/-- An opaque stand-in for `process.cwd()`. -/
def cwd : String := "/srv/app"

/-- `path.join` for the two-segment joins the dispatcher performs: later
segments have a leading "./" or "/" normalized away. -/
def joinPath (a b : String) : String :=
  let b1 := if startsWithS b "./" then dropS b 2 else b
  let b2 := if startsWithS b1 "/" then dropS b1 1 else b1
  if endsWithS a "/" then a ++ b2 else a ++ "/" ++ b2

/-- The dispatcher `fetch` (lines 689-788): dist lookup, assets lookup,
page branch, API branch, fixed not-found response. -/
def fetchHandler (isDev : Bool) (fs : String → Bool) (compile : List String → BuildResult)
    (pages : List PageConfig) (api : List String) (cache : List (String × String))
    (pathname : String) : FetchStep :=
  let distPath := joinPath (joinPath cwd "./dist") pathname
  if fs distPath then
    ⟨.success ⟨200, some (contentTypeFor (extnameS pathname)), .fileBody distPath⟩, cache, []⟩
  else
    let assetsPath := joinPath (joinPath cwd "./assets") pathname
    if fs assetsPath then
      ⟨.success ⟨200, some (contentTypeFor (extnameS pathname)), .fileBody assetsPath⟩, cache, []⟩
    else
      match jsLookup (buildRouteMap pages) pathname with
      | some routeFile => handlePage isDev fs compile (entrypointPaths pages) cache routeFile
      | none =>
        if api.contains pathname then ⟨.success ⟨200, none, .apiBody pathname⟩, cache, []⟩
        else ⟨.success ⟨404, none, .textBody "Route Not Found"⟩, cache, []⟩

/-- Iterate the dispatcher over a sequence of request paths, threading the
cache. -/
def runRequests (isDev : Bool) (fs : String → Bool) (compile : List String → BuildResult)
    (pages : List PageConfig) (api : List String) (cache : List (String × String))
    (paths : List String) : List (String × String) :=
  paths.foldl (fun c p => (fetchHandler isDev fs compile pages api c p).cache) cache

/-- The initial full build at startup (lines 800-810): compile every
entrypoint and record every output; a thrown build propagates out of
`serve` (modelled as leaving the cache unchanged). -/
def initialBuild (compile : List String → BuildResult) (epaths : List String)
    (cache : List (String × String)) : List (String × String) :=
  match compile epaths with
  | .ok outputs => cacheStore cache outputs
  | .failed => cache

/-! ## Correlation ids (src/index.ts lines 689-695, 573-588, 697-787)

`fetch` always draws a fresh id (`randomUUID().split("-")[0]`) and uses it
for the whole trace of the request; the id is appended to the forwarded
headers only when the caller supplied no `X-Request-ID`.  A page handler
reads its id back from the forwarded header
(`req.headers.get("X-Request-ID") || randomUUID()...`), drawing a second
fresh id when the header value is falsy. -/

structure IdTrace where
  rootSpanRid : String
  forwardedHeader : String
  handlerCtxRid : String
deriving DecidableEq, Repr

def fetchIds (freshFetch freshHandler : String) (headerIn : Option String) : IdTrace :=
  let requestId := freshFetch
  let forwarded := match headerIn with
    | some v => v
    | none => requestId
  { rootSpanRid := requestId
    forwardedHeader := forwarded
    handlerCtxRid := if forwarded != "" then forwarded else freshHandler }

/-- The production cache key of a page route (lines 716-717, 733):
`` `${baseName.toLowerCase()}${ext}` `` with
`ext = path.extname(routeFile)` and `baseName = path.basename(routeFile, ext)`. -/
def routeCacheKey (routeFile : String) : String :=
  lowerS (jsBasenameSuffix routeFile (extnameS routeFile)) ++ extnameS routeFile

/-- The descriptor list of the version-override scenario from the spec. -/
def c4Imports : List ImportConfig :=
  [⟨"a", some "1.0", []⟩, ⟨"b", none, ["a"]⟩, ⟨"a", some "2.0", []⟩]

/-- A descriptor whose dependency root `x` is declared by no descriptor. -/
def c5Imports : List ImportConfig := [⟨"b", none, ["x/y"]⟩]

/-- One declared page with an HTML target, for concrete runs of the
dispatcher. -/
def onePage : List PageConfig := [⟨"/", "./pages/index.html"⟩]

/-- A production cache that records an artifact for the one page. -/
def onePageCache : List (String × String) :=
  [("index.html", "/srv/app/dist/index.abc.html")]

/-! ## Record lemmas: `jsInsert` / `jsLookup` -/

theorem jsLookup_insert (m : List (String × String)) (k v k' : String) :
    jsLookup (jsInsert m k v) k' = if k' = k then some v else jsLookup m k' := by
  induction m with
  | nil =>
    by_cases hk : k' = k <;>
      simp [jsInsert, jsLookup, List.find?_cons, hk, beq_eq_false_iff_ne, Ne.symm]
  | cons p ps ih =>
    by_cases hpk : p.1 = k
    · by_cases hk : k' = k <;>
        simp [jsInsert, jsLookup, List.find?_cons, hpk, hk, beq_eq_false_iff_ne, Ne.symm]
    · have hpkb : (p.1 == k) = false := beq_eq_false_iff_ne.mpr hpk
      by_cases hpk' : p.1 = k'
      · have hk : ¬ k' = k := fun h => hpk (h ▸ hpk')
        simp [jsInsert, jsLookup, List.find?_cons, hpkb, hpk', hk]
      · have hpk'b : (p.1 == k') = false := beq_eq_false_iff_ne.mpr hpk'
        have step : jsInsert (p :: ps) k v = p :: jsInsert ps k v := by
          simp [jsInsert, hpkb]
        rw [step]
        simp only [jsLookup, List.find?_cons, hpk'b]
        simpa [jsLookup] using ih

theorem jsLookup_foldl_insert {α : Type} (keyf valf : α → String) (l : List α)
    (m : List (String × String)) (k : String) :
    jsLookup (l.foldl (fun c a => jsInsert c (keyf a) (valf a)) m) k
      = ((l.reverse.find? (fun a => keyf a == k)).map valf).or (jsLookup m k) := by
  induction l generalizing m with
  | nil => simp
  | cons a l ih =>
    rw [List.foldl_cons, ih, List.reverse_cons, List.find?_append]
    cases h : l.reverse.find? (fun a => keyf a == k) with
    | some b => simp
    | none =>
      by_cases hk : keyf a = k
      · simp [List.find?_cons, hk, jsLookup_insert]
      · have : (keyf a == k) = false := beq_eq_false_iff_ne.mpr hk
        simp [List.find?_cons, this, jsLookup_insert, Ne.symm hk]

theorem lookup_buildVersionMap (imports : List ImportConfig) (root : String) :
    jsLookup (buildVersionMap imports) root = lastDeclared imports root := by
  unfold buildVersionMap lastDeclared
  have h := jsLookup_foldl_insert (fun i : ImportConfig => rootKeyOf i.name)
      (fun i : ImportConfig => i.version.getD "latest") imports [] root
  simpa [jsLookup] using h

theorem lookup_cacheStore (cache : List (String × String)) (outs : List String) (k : String) :
    jsLookup (cacheStore cache outs) k
      = ((outs.reverse.find? (fun o => outKeyOf o == k)).map (fun o => o)).or
          (jsLookup cache k) := by
  unfold cacheStore
  exact jsLookup_foldl_insert outKeyOf (fun o => o) outs cache k

theorem lookup_cacheStore_isSome (cache : List (String × String)) (outs : List String)
    (o : String) (ho : o ∈ outs) :
    (jsLookup (cacheStore cache outs) (outKeyOf o)).isSome := by
  rw [lookup_cacheStore]
  cases h : outs.reverse.find? (fun x => outKeyOf x == outKeyOf o) with
  | some b => simp
  | none =>
    exact absurd (List.find?_eq_none.mp h o (List.mem_reverse.mpr ho)) (by simp)

theorem lookup_cacheStore_ne (cache : List (String × String)) (outs : List String)
    (k : String) (h : ∀ o ∈ outs, outKeyOf o ≠ k) :
    jsLookup (cacheStore cache outs) k = jsLookup cache k := by
  rw [lookup_cacheStore]
  cases hf : outs.reverse.find? (fun o => outKeyOf o == k) with
  | some b =>
    have hb : outKeyOf b = k := by
      have := List.find?_some hf
      simpa using this
    exact absurd hb (h b (List.mem_reverse.mp (List.mem_of_find?_eq_some hf)))
  | none => simp

/-! ## String and character lemmas -/

theorem toNat_ofNat_valid (m : Nat) (h : m.isValidChar) : (Char.ofNat m).toNat = m := by
  have hval : Nat.isValidChar m := h
  rw [Char.ofNat, dif_pos hval]
  simp [Char.ofNatAux, Char.toNat, UInt32.toNat]

theorem toLower_ne_dot {c : Char} (hc : c ≠ '.') : Char.toLower c ≠ '.' := by
  by_cases hcond : c.toNat ≥ 65 ∧ c.toNat ≤ 90
  · have hl : Char.toLower c = Char.ofNat (c.toNat + 32) := by
      unfold Char.toLower
      exact if_pos hcond
    rw [hl]
    intro he
    have hv : (c.toNat + 32).isValidChar := Or.inl (by omega)
    have h2 := congrArg Char.toNat he
    rw [toNat_ofNat_valid _ hv] at h2
    have hdot : Char.toNat '.' = 46 := rfl
    omega
  · have hl : Char.toLower c = c := by
      unfold Char.toLower
      exact if_neg hcond
    rw [hl]
    exact hc

theorem not_dot_mem_outBase (s : String) : '.' ∉ (outBaseOf s).toList := by
  intro hmem
  unfold outBaseOf lowerS beforeFirstDotS beforeFirstChar at hmem
  simp only [String.toList] at hmem
  obtain ⟨c, hc, hlow⟩ := List.mem_map.mp hmem
  have hpred := List.mem_takeWhile_imp hc
  have : c ≠ '.' := by simpa using hpred
  exact toLower_ne_dot this hlow

theorem takeWhile_split {c : Char} {l : List Char} (h : c ∈ l) :
    ∃ t, l = l.takeWhile (fun a => a != c) ++ c :: t := by
  induction l with
  | nil => cases h
  | cons a l ih =>
    by_cases hac : a = c
    · subst hac
      exact ⟨l, by simp [List.takeWhile_cons]⟩
    · have hm : c ∈ l := by
        cases List.mem_cons.mp h with
        | inl h0 => exact absurd h0.symm hac
        | inr h0 => exact h0
      obtain ⟨t, ht⟩ := ih hm
      refine ⟨t, ?_⟩
      have hb : (a != c) = true := bne_iff_ne.mpr hac
      rw [List.takeWhile_cons, if_pos hb, List.cons_append]
      exact congrArg (List.cons a) ht

theorem jsBasename_suffix (p : String) : (jsBasename p).toList <:+ p.toList := by
  show ((p.toList.reverse.takeWhile (fun a => a != '/')).reverse) <:+ p.toList
  have h := List.takeWhile_prefix (l := p.toList.reverse) (p := fun a => a != '/')
  have h2 := List.reverse_suffix.mpr h
  simpa using h2

theorem toList_append (a b : String) : (a ++ b).toList = a.toList ++ b.toList :=
  String.data_append a b

theorem extnameS_cases (p : String) :
    extnameS p = "" ∨ ∃ t, (extnameS p).toList = '.' :: t := by
  unfold extnameS
  cases hb : (jsBasename p).toList with
  | nil => exact Or.inl rfl
  | cons c rest =>
    by_cases hd : '.' ∈ rest
    · exact Or.inr ⟨(rest.reverse.takeWhile (fun a => a != '.')).reverse, by simp [hd]⟩
    · exact Or.inl (by simp [hd])

theorem extnameS_suffix (p : String) : (extnameS p).toList <:+ p.toList := by
  have hbs : (jsBasename p).toList <:+ p.toList := jsBasename_suffix p
  unfold extnameS
  cases hb : (jsBasename p).toList with
  | nil => simp
  | cons c rest =>
    by_cases hd : '.' ∈ rest
    · simp only [hd, if_true]
      have hdr : '.' ∈ rest.reverse := List.mem_reverse.mpr hd
      obtain ⟨t, ht⟩ := takeWhile_split hdr
      have hrest : rest
          = t.reverse ++ '.' :: (rest.reverse.takeWhile (fun a => a != '.')).reverse := by
        have h2 := congrArg List.reverse ht
        rw [List.reverse_reverse] at h2
        calc rest = (List.takeWhile (fun a => a != '.') rest.reverse ++ '.' :: t).reverse := h2
          _ = t.reverse ++ '.' :: (rest.reverse.takeWhile (fun a => a != '.')).reverse := by
              simp [List.reverse_append]
      have hsub : ('.' :: (rest.reverse.takeWhile (fun a => a != '.')).reverse)
          <:+ (c :: rest) := by
        refine ⟨c :: t.reverse, ?_⟩
        rw [List.cons_append]
        congr 1
        exact hrest.symm
      have hfin : (c :: rest) <:+ p.toList := hb ▸ hbs
      exact hsub.trans hfin
    · simp [hd]

theorem outKey_ne_of_not_endsWith {o rb ext : String}
    (hshape : ext = "" ∨ ∃ t, ext.toList = '.' :: t)
    (hend : endsWithS o ext = false) :
    outKeyOf o ≠ rb ++ ext := by
  intro heq
  cases hshape with
  | inl h0 =>
    subst h0
    have htrue : endsWithS o "" = true := by
      simp [endsWithS]
    rw [htrue] at hend
    cases hend
  | inr hex =>
    obtain ⟨t, hextL⟩ := hex
    have hL : (outBaseOf o).toList ++ (extnameS o).toList = rb.toList ++ ext.toList := by
      have h2 := congrArg String.toList heq
      rw [show outKeyOf o = outBaseOf o ++ extnameS o from rfl] at h2
      rw [toList_append, toList_append] at h2
      exact h2
    have hEsub : ext.toList <:+ (outBaseOf o).toList ++ (extnameS o).toList := by
      rw [hL]
      exact List.suffix_append _ _
    have hOsub : (extnameS o).toList <:+ (outBaseOf o).toList ++ (extnameS o).toList :=
      List.suffix_append _ _
    have hnend : ¬ (ext.toList <:+ o.toList) := by
      intro hx
      have : endsWithS o ext = true := decide_eq_true hx
      rw [this] at hend
      cases hend
    by_cases hlen : ext.toList.length ≤ (extnameS o).toList.length
    · have h1 : ext.toList <:+ (extnameS o).toList :=
        List.suffix_of_suffix_length_le hEsub hOsub hlen
      exact hnend (h1.trans (extnameS_suffix o))
    · push_neg at hlen
      have h1 : (extnameS o).toList <:+ ext.toList :=
        List.suffix_of_suffix_length_le hOsub hEsub (Nat.le_of_lt hlen)
      obtain ⟨m, hm⟩ := h1
      have hmne : m ≠ [] := by
        intro h0
        rw [h0, List.nil_append] at hm
        rw [hm] at hlen
        exact Nat.lt_irrefl _ hlen
      have hB : (outBaseOf o).toList = rb.toList ++ m := by
        have h2 : (outBaseOf o).toList ++ (extnameS o).toList
            = (rb.toList ++ m) ++ (extnameS o).toList := by
          rw [hL, ← hm, List.append_assoc]
        exact List.append_cancel_right h2
      cases m with
      | nil => exact hmne rfl
      | cons mc mt =>
        have hcons : mc :: (mt ++ (extnameS o).toList) = '.' :: t := by
          rw [← List.cons_append, hm, hextL]
        have hmc : mc = '.' := (List.cons.injEq _ _ _ _).mp hcons |>.1
        have hdotB : '.' ∈ (outBaseOf o).toList := by
          rw [hB, ← hmc]
          exact List.mem_append.mpr (Or.inr (List.mem_cons_self _ _))
        exact not_dot_mem_outBase o hdotB

theorem beforeFirstChar_eq_self {c : Char} {s : String}
    (h : containsCharS s c = false) : beforeFirstChar c s = s := by
  unfold beforeFirstChar
  have hmem : c ∉ s.toList := by simpa [containsCharS] using h
  have hall : ∀ a ∈ s.toList, (a != c) = true := fun a ha =>
    bne_iff_ne.mpr (fun he => hmem (he ▸ ha))
  rw [List.takeWhile_eq_self_iff.mpr hall]
  cases s
  rfl

/-! ## Tracer lemmas -/

theorem span_level_runMeasure (ctx : MeasureContext) (c : Call) :
    (runMeasure ctx c).span.level = ctx.level.getD 0 := by
  cases c
  rfl

theorem span_rid_runMeasure (ctx : MeasureContext) (c : Call) :
    (runMeasure ctx c).span.requestId = ctx.requestId := by
  cases c
  rfl

mutual
theorem depthOk_run : ∀ (ctx : MeasureContext) (c : Call), depthOk (runMeasure ctx c) = true
  | ctx, .mk action children => by
    rw [runMeasure, depthOk]
    exact depthOkList_run (ctx.level.getD 0)
      (if truthyOpt ctx.requestId then ctx.requestId else none) (some action) children
theorem depthOkList_run : ∀ (parent : Nat) (rid pa : Option String) (cs : CallList),
    depthOkList parent (runMeasureList ⟨rid, some (parent + 1), pa⟩ cs) = true
  | _, _, _, .nil => rfl
  | parent, rid, pa, .cons c cs => by
    rw [runMeasureList, depthOkList]
    rw [span_level_runMeasure, depthOk_run, depthOkList_run parent rid pa cs]
    simp
end

mutual
theorem ridAll_run : ∀ (r : String), r ≠ "" → ∀ (l : Option Nat) (pa : Option String)
    (c : Call), ridAll (some r) (runMeasure ⟨some r, l, pa⟩ c) = true
  | r, hr, l, pa, .mk action children => by
    rw [runMeasure, ridAll]
    have ht : truthyOpt (some r) = true := by
      simpa [truthyOpt] using hr
    rw [show (if truthyOpt (some r) then some r else (none : Option String)) = some r by
      rw [ht]; rfl]
    rw [ridAllList_run r hr (some (l.getD 0 + 1)) (some action) children]
    simp
theorem ridAllList_run : ∀ (r : String), r ≠ "" → ∀ (l : Option Nat) (pa : Option String)
    (cs : CallList), ridAllList (some r) (runMeasureList ⟨some r, l, pa⟩ cs) = true
  | _, _, _, _, .nil => rfl
  | r, hr, l, pa, .cons c cs => by
    rw [runMeasureList, ridAllList]
    rw [ridAll_run r hr l pa c, ridAllList_run r hr l pa cs]
    rfl
end

/-! ## Dispatcher lemmas -/

theorem finishPage_cache (c : List (String × String)) (k : List (List String))
    (h : Option String) (r : String) : (finishPage c k h r).cache = c := by
  cases h <;> rfl

theorem finishPage_calls (c : List (String × String)) (k : List (List String))
    (h : Option String) (r : String) : (finishPage c k h r).compileCalls = k := by
  cases h <;> rfl

theorem fetchHandler_page (isDev : Bool) (fs : String → Bool)
    (compile : List String → BuildResult) (pages : List PageConfig) (api : List String)
    (cache : List (String × String)) (pathname routeFile : String)
    (hdist : fs (joinPath (joinPath cwd "./dist") pathname) = false)
    (hassets : fs (joinPath (joinPath cwd "./assets") pathname) = false)
    (hroute : jsLookup (buildRouteMap pages) pathname = some routeFile) :
    fetchHandler isDev fs compile pages api cache pathname
      = handlePage isDev fs compile (entrypointPaths pages) cache routeFile := by
  unfold fetchHandler
  simp [hdist, hassets, hroute]

theorem handlePage_dev (fs : String → Bool) (compile : List String → BuildResult)
    (epaths : List String) (cache : List (String × String)) (routeFile ep : String)
    (hfind : epaths.find? (fun e => outBaseOf e == outBaseOf routeFile) = some ep) :
    handlePage true fs compile epaths cache routeFile
      = match compile [ep] with
        | .ok outs => finishPage (cacheStore cache outs) [[ep]]
            (outs.find? (fun o => endsWithS o (extnameS routeFile))) routeFile
        | .failed => finishPage cache [[ep]] none routeFile := by
  unfold handlePage rebuildPage
  rw [hfind]
  cases hc : compile [ep] with
  | ok outs => simp [hc]
  | failed => simp [hc]

theorem handlePage_prod (fs : String → Bool) (compile : List String → BuildResult)
    (epaths : List String) (cache : List (String × String)) (routeFile : String) :
    handlePage false fs compile epaths cache routeFile
      = finishPage cache []
          (match jsLookup cache (routeCacheKey routeFile) with
            | some p => if fs p then some p else none
            | none => none)
          routeFile := by
  unfold handlePage rebuildPage routeCacheKey
  cases h : jsLookup cache
      (lowerS (jsBasenameSuffix routeFile (extnameS routeFile)) ++ extnameS routeFile) with
  | some p =>
    by_cases hf : fs p = true
    · simp [h, hf]
    · have hf' : fs p = false := Bool.not_eq_true _ ▸ eq_false_of_ne_true hf
      simp [h, hf']
  | none => simp [h]

theorem fetchHandler_prod_frame (fs : String → Bool) (compile : List String → BuildResult)
    (pages : List PageConfig) (api : List String) (cache : List (String × String))
    (pathname : String) :
    (fetchHandler false fs compile pages api cache pathname).cache = cache
    ∧ (fetchHandler false fs compile pages api cache pathname).compileCalls = [] := by
  unfold fetchHandler
  by_cases h1 : fs (joinPath (joinPath cwd "./dist") pathname) = true
  · simp [h1]
  · have h1' : fs (joinPath (joinPath cwd "./dist") pathname) = false :=
      eq_false_of_ne_true h1
    by_cases h2 : fs (joinPath (joinPath cwd "./assets") pathname) = true
    · simp [h1', h2]
    · have h2' : fs (joinPath (joinPath cwd "./assets") pathname) = false :=
        eq_false_of_ne_true h2
      cases hr : jsLookup (buildRouteMap pages) pathname with
      | some routeFile =>
        simp only [h1', h2', hr, Bool.false_eq_true, if_false]
        rw [handlePage_prod]
        exact ⟨finishPage_cache _ _ _ _, finishPage_calls _ _ _ _⟩
      | none =>
        simp only [h1', h2', hr, Bool.false_eq_true, if_false]
        split <;> exact ⟨rfl, rfl⟩

theorem runRequests_prod_frame (fs : String → Bool) (compile : List String → BuildResult)
    (pages : List PageConfig) (api : List String) (cache : List (String × String))
    (paths : List String) :
    runRequests false fs compile pages api cache paths = cache := by
  induction paths generalizing cache with
  | nil => rfl
  | cons p ps ih =>
    unfold runRequests
    rw [List.foldl_cons, (fetchHandler_prod_frame fs compile pages api cache p).1]
    exact ih cache

/-! ## Claim theorems -/

/-- C3 counterexample: for the wrapped error thrown by `measure`'s catch
branch, the original error object is not reachable through any `cause`
link — `throw new Error(...)` attaches no cause, so the claim that the
original stack/cause stays reachable is false already for a unit of work
throwing `new Error("boom")` under the label `"step"`. -/
theorem c3_counterexample :
    causeReachable (measureWrap "step" (ErrVal.errNoCause "boom")) (ErrVal.errNoCause "boom")
      = false
    ∧ causeOf (measureWrap "step" (ErrVal.errNoCause "boom")) = none :=
  ⟨rfl, rfl⟩

/-- C3 (amended): `measure` re-raises a fresh `Error` whose message embeds
the failing label (as a prefix) and the string description of the original
error (as a suffix), but the original error object itself is discarded: the
wrapped error has no `cause`, and nothing is reachable from it through
cause links — only the string rendering of the original survives. -/
theorem c3_wrap_message_only (action : String) (e : ErrVal) :
    messageOf (measureWrap action e) = some (action ++ " failed: " ++ errToString e)
    ∧ causeOf (measureWrap action e) = none
    ∧ action.toList <+: (action ++ " failed: " ++ errToString e).toList
    ∧ (errToString e).toList <:+ (action ++ " failed: " ++ errToString e).toList
    ∧ ∀ e', causeReachable (measureWrap action e) e' = false := by
  refine ⟨rfl, rfl, ?_, ?_, fun e' => rfl⟩
  · rw [toList_append, toList_append, List.append_assoc]
    exact List.prefix_append _ _
  · rw [toList_append]
    exact List.suffix_append _ _

/-- C4: the first-pass version map resolves every package root to the
version of the last descriptor declaring that root (defaulting to
"latest"); that resolved version is the one interpolated both into the
root's own delivery URL and into every `deps` entry naming the root; and on
the spec's scenario `[a@1.0, b deps [a], a@2.0]` the resolved URL for `b`
embeds `a@2.0` and the URL for `a` is `https://esm.sh/a@2.0`. -/
theorem c4_version_override :
    (∀ (imports : List ImportConfig) (root : String),
        jsLookup (buildVersionMap imports) root = lastDeclared imports root)
    ∧ (∀ (imports : List ImportConfig) (imp : ImportConfig),
        startsWithS imp.name "@" = false → containsCharS imp.name '/' = false →
        baseUrlOf (buildVersionMap imports) imp
          = "https://esm.sh/" ++ imp.name ++ "@" ++ jsStr (lastDeclared imports imp.name))
    ∧ (∀ (imports : List ImportConfig) (dep : String),
        depEntryOf (buildVersionMap imports) dep
          = dep ++ "@" ++ jsStr (lastDeclared imports (beforeFirstChar '/' dep)))
    ∧ jsLookup (resolveImports c4Imports false) "b"
        = some "https://esm.sh/b@latest?deps=a@2.0"
    ∧ jsLookup (resolveImports c4Imports false) "a" = some "https://esm.sh/a@2.0"
    ∧ "a@2.0".toList <:+: "https://esm.sh/b@latest?deps=a@2.0".toList := by
  refine ⟨lookup_buildVersionMap, ?_, ?_, by decide, by decide, by decide⟩
  · intro imports imp h1 h2
    unfold baseUrlOf
    have hb : beforeFirstChar '/' imp.name = imp.name := beforeFirstChar_eq_self h2
    simp [h1, h2, hb, lookup_buildVersionMap]
  · intro imports dep
    unfold depEntryOf
    rw [lookup_buildVersionMap]

/-- C4 witness: the second conjunct applied to the plain descriptor `b` of
the override scenario. -/
theorem c4_witness :
    startsWithS "b" "@" = false ∧ containsCharS "b" '/' = false
    ∧ baseUrlOf (buildVersionMap c4Imports) ⟨"b", none, ["a"]⟩
        = "https://esm.sh/" ++ "b" ++ "@" ++ jsStr (lastDeclared c4Imports "b") :=
  ⟨by decide, by decide,
    c4_version_override.2.1 c4Imports ⟨"b", none, ["a"]⟩ (by decide) (by decide)⟩

/-- C5 counterexample: for the descriptor list `[\x7bname: "b",
deps: ["x/y"]\x7d]` whose dependency root `x` is declared nowhere, the
generated URL for `b` carries the deps entry `x/y@undefined` — the full
dependency name paired with the literal string `"undefined"` (JS
interpolation of a missing record field), not the root name paired with
"latest" as the claim states. -/
theorem c5_counterexample :
    jsLookup (resolveImports c5Imports false) "b"
      = some "https://esm.sh/b@latest?deps=x/y@undefined"
    ∧ ¬ ("x@latest".toList <:+: "https://esm.sh/b@latest?deps=x/y@undefined".toList) := by
  exact ⟨by decide, by decide⟩

/-- C5 (amended): for every descriptor with a non-empty deps list, the
delivery URL carries a `deps` query parameter pairing each dependency's
name as written (root plus any sub-path) with the version looked up in the
first-pass mapping under the dependency's root — i.e. the last declared
version of that root — rendered as the literal string `"undefined"` when no
descriptor declares the root. -/
theorem c5_deps_param (imports : List ImportConfig) (isDev : Bool) (imp : ImportConfig)
    (h : imp.deps ≠ []) :
    importUrl (buildVersionMap imports) isDev imp
      = baseUrlOf (buildVersionMap imports) imp ++ "?" ++ String.intercalate "&"
          (("deps=" ++ String.intercalate ","
              (imp.deps.map (fun d =>
                d ++ "@" ++ jsStr (lastDeclared imports (beforeFirstChar '/' d)))))
            :: (if isDev then ["dev"] else [])) := by
  unfold importUrl depEntryOf
  have hmap : imp.deps.map (fun d =>
        d ++ "@" ++ jsStr (jsLookup (buildVersionMap imports) (beforeFirstChar '/' d)))
      = imp.deps.map (fun d =>
        d ++ "@" ++ jsStr (lastDeclared imports (beforeFirstChar '/' d))) := by
    apply List.map_congr_left
    intro d _
    rw [lookup_buildVersionMap]
  simp [h, hmap]

/-- C5 witness: the amended deps-parameter law applied to the undeclared
dependency scenario. -/
theorem c5_witness :
    (c5Imports.headD ⟨"", none, []⟩).deps ≠ []
    ∧ importUrl (buildVersionMap c5Imports) false ⟨"b", none, ["x/y"]⟩
      = baseUrlOf (buildVersionMap c5Imports) ⟨"b", none, ["x/y"]⟩ ++ "?"
        ++ String.intercalate "&"
          (("deps=" ++ String.intercalate ","
              (["x/y"].map (fun d =>
                d ++ "@" ++ jsStr (lastDeclared c5Imports (beforeFirstChar '/' d)))))
            :: []) :=
  ⟨by decide, c5_deps_param c5Imports false ⟨"b", none, ["x/y"]⟩ (by decide)⟩

/-- C6 counterexample: when the caller already supplies
`X-Request-ID: abc`, the dispatcher's trace spans carry the freshly
generated id (`requestId` at line 690 is always used in the `measure`
context at line 786) while the page handler reads the caller's id back from
the forwarded header (line 576) — so one and the same id is not attached to
both. -/
theorem c6_counterexample :
    (fetchIds "1a2b3c4d" "9f8e" (some "abc")).rootSpanRid
      ≠ (fetchIds "1a2b3c4d" "9f8e" (some "abc")).handlerCtxRid := by
  decide

/-- C6 (amended): a fresh id is generated unconditionally per request and
used for the request's root span and, through context propagation, for
every span beneath it; the id is attached to the forwarded headers only
when the caller supplied no `X-Request-ID`; the handler context carries the
forwarded header value (the caller's id when one was supplied and
non-empty, otherwise the generated id), so spans and handler agree exactly
when the caller supplied no id. -/
theorem c6_request_id_flow :
    (∀ (f1 f2 : String) (h : Option String), (fetchIds f1 f2 h).rootSpanRid = f1)
    ∧ (∀ f1 f2 : String, fetchIds f1 f2 none = ⟨f1, f1, if f1 != "" then f1 else f2⟩)
    ∧ (∀ f1 f2 v : String, (fetchIds f1 f2 (some v)).forwardedHeader = v)
    ∧ (∀ f1 f2 v : String, v ≠ "" → (fetchIds f1 f2 (some v)).handlerCtxRid = v)
    ∧ (∀ r : String, r ≠ "" → ∀ c : Call,
        ridAll (some r) (runMeasure ⟨some r, none, none⟩ c) = true) := by
  refine ⟨fun _ _ _ => rfl, fun _ _ => rfl, fun _ _ _ => rfl, ?_, ?_⟩
  · intro f1 f2 v hv
    unfold fetchIds
    simp [bne_iff_ne.mpr hv]
  · intro r hr c
    exact ridAll_run r hr none none c

/-- C6 witness: the amended id flow applied to a request carrying
`X-Request-ID: abc` and fresh ids `1a2b3c4d` / `9f8e`. -/
theorem c6_witness :
    (("abc" : String) ≠ "")
    ∧ (fetchIds "1a2b3c4d" "9f8e" (some "abc")).handlerCtxRid = "abc"
    ∧ (("1a2b3c4d" : String) ≠ "")
    ∧ ridAll (some "1a2b3c4d")
        (runMeasure ⟨some "1a2b3c4d", none, none⟩ (Call.mk "GET /" CallList.nil)) = true :=
  ⟨by decide, c6_request_id_flow.2.2.2.1 "1a2b3c4d" "9f8e" "abc" (by decide),
   by decide, c6_request_id_flow.2.2.2.2 "1a2b3c4d" (by decide) _⟩

/-- C9: every span tree produced by `measure` satisfies the depth
invariants: a root invocation with no `level` in its context (as the
dispatcher's root call) has depth 0, each nested span's depth equals its
parent's depth plus one at every level of every tree (no fixed limit), and
with a truthy request id the nested `measure` handed to the unit of work
carries the same id into every span of the tree. -/
theorem c9_span_depth_invariants :
    (∀ (rid pa : Option String) (a : String) (cs : CallList),
        (runMeasure ⟨rid, none, pa⟩ (Call.mk a cs)).span.level = 0)
    ∧ (∀ (ctx : MeasureContext) (c : Call), depthOk (runMeasure ctx c) = true)
    ∧ (∀ (r : String), r ≠ "" → ∀ (l : Option Nat) (pa : Option String) (c : Call),
        ridAll (some r) (runMeasure ⟨some r, l, pa⟩ c) = true) := by
  refine ⟨?_, depthOk_run, ridAll_run⟩
  intro rid pa a cs
  rw [span_level_runMeasure]
  rfl

/-- C9 witness: the invariants applied to a depth-two call chain under the
request id `ab12cd34`. -/
theorem c9_witness :
    (("ab12cd34" : String) ≠ "")
    ∧ ridAll (some "ab12cd34")
        (runMeasure ⟨some "ab12cd34", none, none⟩
          (Call.mk "GET /" (CallList.cons (Call.mk "page /" CallList.nil) CallList.nil)))
      = true
    ∧ depthOk
        (runMeasure ⟨some "ab12cd34", none, none⟩
          (Call.mk "GET /" (CallList.cons (Call.mk "page /" CallList.nil) CallList.nil)))
      = true :=
  ⟨by decide, c9_span_depth_invariants.2.2 "ab12cd34" (by decide) none none _,
   c9_span_depth_invariants.2.1 _ _⟩

/-- C1: evaluation of the dispatcher at the failing input.  In production
mode, with the cache holding a key for the declared route but the recorded
artifact deleted from disk, the request performs zero compiles, leaves the
cache untouched and rejects with `Page not found` — because `rebuildPage`
returns `null` whenever `isDev` is false — whereas with the artifact
present the cache hit is served with zero compiles.  The claimed behavior
(exactly one rebuild, cache update, then serving the new artifact) does not
occur for any compiler. -/
theorem c1_production_miss_no_rebuild (compile : List String → BuildResult) :
    fetchHandler false (fun _ => false) compile onePage [] onePageCache "/"
      = ⟨.thrown (pageNotFoundMsg "pages/index.html"), onePageCache, []⟩
    ∧ fetchHandler false (fun p => p == "/srv/app/dist/index.abc.html") compile onePage []
        onePageCache "/"
      = ⟨.success ⟨200, some "text/html", .pageBody "/srv/app/dist/index.abc.html"⟩,
          onePageCache, []⟩ :=
  ⟨rfl, rfl⟩

/-- C2: in development mode, a request that reaches the page branch
compiles exactly once, and exactly the entrypoint whose base name matches
the route's target; on success the cache is updated with one record per
produced output (every output's key is present afterwards, not only the one
matching the route) and the artifact served is the matching output of this
very compile; a second request for the same route compiles once again. -/
theorem c2_dev_compiles_each_request (fs : String → Bool)
    (compile : List String → BuildResult) (pages : List PageConfig) (api : List String)
    (cache : List (String × String)) (pathname routeFile ep : String)
    (hdist : fs (joinPath (joinPath cwd "./dist") pathname) = false)
    (hassets : fs (joinPath (joinPath cwd "./assets") pathname) = false)
    (hroute : jsLookup (buildRouteMap pages) pathname = some routeFile)
    (hfind : (entrypointPaths pages).find? (fun e => outBaseOf e == outBaseOf routeFile)
        = some ep) :
    (fetchHandler true fs compile pages api cache pathname).compileCalls = [[ep]]
    ∧ (∀ outs, compile [ep] = .ok outs →
        (fetchHandler true fs compile pages api cache pathname).cache = cacheStore cache outs
        ∧ (∀ o ∈ outs,
            (jsLookup (fetchHandler true fs compile pages api cache pathname).cache
              (outKeyOf o)).isSome)
        ∧ (∀ b, outs.find? (fun o => endsWithS o (extnameS routeFile)) = some b →
            (fetchHandler true fs compile pages api cache pathname).outcome
              = .success ⟨200, some "text/html", .pageBody b⟩))
    ∧ (fetchHandler true fs compile pages api
        (fetchHandler true fs compile pages api cache pathname).cache pathname).compileCalls
      = [[ep]] := by
  have hpage : ∀ c : List (String × String),
      fetchHandler true fs compile pages api c pathname
        = handlePage true fs compile (entrypointPaths pages) c routeFile := fun c =>
    fetchHandler_page true fs compile pages api c pathname routeFile hdist hassets hroute
  have hdev : ∀ c : List (String × String),
      handlePage true fs compile (entrypointPaths pages) c routeFile
        = match compile [ep] with
          | .ok outs => finishPage (cacheStore c outs) [[ep]]
              (outs.find? (fun o => endsWithS o (extnameS routeFile))) routeFile
          | .failed => finishPage c [[ep]] none routeFile := fun c =>
    handlePage_dev fs compile (entrypointPaths pages) c routeFile ep hfind
  have hcalls : ∀ c : List (String × String),
      (fetchHandler true fs compile pages api c pathname).compileCalls = [[ep]] := by
    intro c
    rw [hpage c, hdev c]
    cases hc : compile [ep] with
    | ok outs => simp only [hc, finishPage_calls]
    | failed => simp only [hc, finishPage_calls]
  refine ⟨hcalls cache, ?_, hcalls _⟩
  intro outs hc
  rw [hpage cache, hdev cache]
  simp only [hc]
  refine ⟨finishPage_cache _ _ _ _, ?_, ?_⟩
  · intro o ho
    rw [finishPage_cache]
    exact lookup_cacheStore_isSome cache outs o ho
  · intro b hb
    rw [hb]
    rfl

/-- C2 witness: one HTML page, a compiler producing an HTML and a JS chunk;
the route compiles once, both outputs land in the cache, the new HTML
artifact is served, and the second request compiles once again. -/
theorem c2_witness :
    ((fun _ : String => false) (joinPath (joinPath cwd "./dist") "/") = false)
    ∧ jsLookup (buildRouteMap onePage) "/" = some "pages/index.html"
    ∧ (entrypointPaths onePage).find?
        (fun e => outBaseOf e == outBaseOf "pages/index.html") = some "./pages/index.html"
    ∧ (fetchHandler true (fun _ => false)
        (fun _ => BuildResult.ok
          ["/srv/app/dist/index.abc.html", "/srv/app/dist/index.abc.js"])
        onePage [] [] "/").compileCalls = [["./pages/index.html"]] := by
  refine ⟨rfl, by decide, by decide, ?_⟩
  exact (c2_dev_compiles_each_request (fun _ => false)
    (fun _ => BuildResult.ok ["/srv/app/dist/index.abc.html", "/srv/app/dist/index.abc.js"])
    onePage [] [] "/" "pages/index.html" "./pages/index.html"
    rfl rfl (by decide) (by decide)).1

/-- C7: when the compile for a page route fails, or succeeds but produces
no output matching the route's expected extension, the page branch rejects
with `Page not found` for this request; the cache record under the route's
derived key is left exactly as it was (a failed build writes nothing at
all, and a build with no matching output can only write keys of other
extensions, never the route's key). -/
theorem c7_compile_failure_not_found (fs : String → Bool)
    (compile : List String → BuildResult) (pages : List PageConfig) (api : List String)
    (cache : List (String × String)) (pathname routeFile ep : String)
    (hdist : fs (joinPath (joinPath cwd "./dist") pathname) = false)
    (hassets : fs (joinPath (joinPath cwd "./assets") pathname) = false)
    (hroute : jsLookup (buildRouteMap pages) pathname = some routeFile)
    (hfind : (entrypointPaths pages).find? (fun e => outBaseOf e == outBaseOf routeFile)
        = some ep)
    (hfail : compile [ep] = .failed
      ∨ ∃ outs, compile [ep] = .ok outs
          ∧ ∀ o ∈ outs, endsWithS o (extnameS routeFile) = false) :
    (fetchHandler true fs compile pages api cache pathname).outcome
        = .thrown (pageNotFoundMsg routeFile)
    ∧ jsLookup (fetchHandler true fs compile pages api cache pathname).cache
        (routeCacheKey routeFile)
      = jsLookup cache (routeCacheKey routeFile)
    ∧ (compile [ep] = .failed →
        (fetchHandler true fs compile pages api cache pathname).cache = cache) := by
  rw [fetchHandler_page true fs compile pages api cache pathname routeFile hdist hassets hroute,
    handlePage_dev fs compile (entrypointPaths pages) cache routeFile ep hfind]
  cases hfail with
  | inl hf =>
    simp only [hf]
    exact ⟨rfl, rfl, fun _ => rfl⟩
  | inr hex =>
    obtain ⟨outs, hok, hno⟩ := hex
    simp only [hok]
    have hfind0 : outs.find? (fun o => endsWithS o (extnameS routeFile)) = none :=
      List.find?_eq_none.mpr (fun o ho => by
        rw [hno o ho]
        simp)
    rw [hfind0]
    refine ⟨rfl, ?_, ?_⟩
    · rw [finishPage_cache]
      exact lookup_cacheStore_ne cache outs (routeCacheKey routeFile)
        (fun o ho =>
          outKey_ne_of_not_endsWith (extnameS_cases routeFile) (hno o ho))
    · intro hf
      exact absurd hf (by simp)

/-- C7 witness: a compiler that throws for the one declared HTML page; the
request is rejected with `Page not found` and the route's cache record is
untouched. -/
theorem c7_witness :
    jsLookup (buildRouteMap onePage) "/" = some "pages/index.html"
    ∧ ((fun _ : List String => BuildResult.failed) ["./pages/index.html"]
        = BuildResult.failed)
    ∧ (fetchHandler true (fun _ => false) (fun _ => BuildResult.failed) onePage []
        onePageCache "/").outcome = .thrown (pageNotFoundMsg "pages/index.html")
    ∧ jsLookup (fetchHandler true (fun _ => false) (fun _ => BuildResult.failed) onePage []
        onePageCache "/").cache (routeCacheKey "pages/index.html")
      = jsLookup onePageCache (routeCacheKey "pages/index.html") := by
  have h := c7_compile_failure_not_found (fun _ => false) (fun _ => BuildResult.failed)
    onePage [] onePageCache "/" "pages/index.html" "./pages/index.html"
    rfl rfl (by decide) (by decide) (Or.inl rfl)
  exact ⟨by decide, rfl, h.1, h.2.1⟩

/-- C8: a request whose path matches no file under the build-output
directory, no asset, no declared page route and no API route yields the
fixed `Route Not Found` response with status 404, with the cache unchanged
and no compiler invocation. -/
theorem c8_route_not_found (isDev : Bool) (fs : String → Bool)
    (compile : List String → BuildResult) (pages : List PageConfig) (api : List String)
    (cache : List (String × String)) (pathname : String)
    (hdist : fs (joinPath (joinPath cwd "./dist") pathname) = false)
    (hassets : fs (joinPath (joinPath cwd "./assets") pathname) = false)
    (hroute : jsLookup (buildRouteMap pages) pathname = none)
    (hapi : api.contains pathname = false) :
    fetchHandler isDev fs compile pages api cache pathname
      = ⟨.success ⟨404, none, .textBody "Route Not Found"⟩, cache, []⟩ := by
  have hmem : pathname ∉ api := by simpa using hapi
  unfold fetchHandler
  simp [hdist, hassets, hroute, hapi, hmem]

/-- C8 witness: an undeclared path with no matching static file on a server
declaring one page and no API routes. -/
theorem c8_witness :
    ((fun _ : String => false) (joinPath (joinPath cwd "./dist") "/nope") = false)
    ∧ jsLookup (buildRouteMap onePage) "/nope" = none
    ∧ ([] : List String).contains "/nope" = false
    ∧ fetchHandler false (fun _ => false) (fun _ => BuildResult.failed) onePage []
        onePageCache "/nope"
      = ⟨.success ⟨404, none, .textBody "Route Not Found"⟩, onePageCache, []⟩ :=
  ⟨rfl, by decide, rfl,
    c8_route_not_found false (fun _ => false) (fun _ => BuildResult.failed) onePage []
      onePageCache "/nope" rfl rfl (by decide) rfl⟩

/-- C10: outside development mode `rebuildPage` returns `null` for every
input, invoking no compiler and writing nothing to the cache; consequently
every production request — whatever branch it takes — leaves
`filePathCache` exactly as the initial build at startup populated it, and
performs zero compiles. -/
theorem c10_production_frame :
    (∀ (compile : List String → BuildResult) (epaths : List String)
        (cache : List (String × String)) (pagePath : String),
        rebuildPage false compile epaths cache pagePath
          = ⟨none, cache, []⟩)
    ∧ (∀ (fs : String → Bool) (compile : List String → BuildResult)
        (pages : List PageConfig) (api : List String) (cache : List (String × String))
        (pathname : String),
        (fetchHandler false fs compile pages api cache pathname).cache = cache
        ∧ (fetchHandler false fs compile pages api cache pathname).compileCalls = [])
    ∧ (∀ (fs : String → Bool) (compile : List String → BuildResult)
        (pages : List PageConfig) (api : List String) (cache : List (String × String))
        (paths : List String),
        runRequests false fs compile pages api cache paths = cache) :=
  ⟨fun _ _ _ _ => rfl,
   fun fs compile pages api cache pathname =>
     fetchHandler_prod_frame fs compile pages api cache pathname,
   fun fs compile pages api cache paths =>
     runRequests_prod_frame fs compile pages api cache paths⟩

end MementsServe
